/-
Verification of the retrieval-augmented answering pipeline of the
rag-poc-template repository.

Shallow embedding conventions:
- Python strings are modelled as `Str := List Char`, so that slicing
  (`s[:n]`, `s[1:-1]`, `s[-k:]`), `split`, `strip` and `join` can be given
  their exact Python semantics as executable Lean functions.
- External collaborators (the embedding HTTP endpoint, the chat model, the
  Chroma / BM25 retrievers, the yaml parser and the markdown renderer) are
  supplied as oracle parameters; the repository code built on top of them is
  translated function by function.
- Loops over lists are translated as structural recursions; the fuel
  argument of `addBatchesF` is fixed to `docs.length` at the single call
  site, which strictly dominates the number of loop iterations
  (one iteration per 64 documents), so the fueled recursion computes the
  same entries as the Python `for start_idx in range(0, len(texts), 64)`
  loop.
-/
import Mathlib

/-- Python strings viewed as character sequences. -/
abbrev Str := List Char

/-- Lift a Lean string literal into the character-sequence model. -/
def str (s : String) : Str := s.data

/-- Characters stripped by Python `str.strip()` (the ASCII whitespace that can
occur in this code base). -/
def isPySpace (c : Char) : Bool :=
  c == ' ' || c == '\t' || c == '\n' || c == '\r' ||
  c == Char.ofNat 11 || c == Char.ofNat 12

/-- Python `s.strip()`. -/
def pyStrip (s : Str) : Str :=
  ((s.dropWhile isPySpace).reverse.dropWhile isPySpace).reverse

/-- Python `sep.join(parts)`. -/
def pyJoin (sep : Str) : List Str → Str
  | [] => []
  | [x] => x
  | x :: y :: xs => x ++ sep ++ pyJoin sep (y :: xs)

/-- Python `s.split("\n")`. -/
def splitNL : Str → List Str
  | [] => [[]]
  | c :: rest =>
    if c = '\n' then [] :: splitNL rest
    else
      match splitNL rest with
      | [] => [[c]]
      | l :: ls => (c :: l) :: ls

/-- Python `l[-k:]`.  Note that for `k = 0` the slice is `l[0:]`, i.e. the
whole list, not the empty list. -/
def pyLastSlice (k : Nat) (l : List α) : List α :=
  if k = 0 then l else l.drop (l.length - k)

/-- Python `s[1:-1]`. -/
def pyStripEnds (s : Str) : Str := (s.drop 1).dropLast

/-- Python truthiness `a or b` for an optional string `a`. -/
def pyOr (o : Option Str) (dflt : Str) : Str :=
  match o with
  | some s => if s.isEmpty then dflt else s
  | none => dflt

/-- Python truthiness of an `Optional[str]` value. -/
def optTruthy (o : Option Str) : Bool :=
  match o with
  | some s => !s.isEmpty
  | none => false

/-- `s` starts with the character `c` (Python `s.startswith(c)` for a
one-character pattern). -/
def headIs (c : Char) : Str → Bool
  | [] => false
  | a :: _ => a == c

/-- `s` ends with the character `c` (Python `s.endswith(c)` for a
one-character pattern). -/
def lastIs (c : Char) (s : Str) : Bool :=
  match s.getLast? with
  | none => false
  | some a => a == c

/-- The double-quote character. -/
def dqc : Char := Char.ofNat 34

/-- The single-quote character. -/
def sqc : Char := Char.ofNat 39

/-- agent_nodes.py lines 105-109: remove quotes if the model wrapped the
response.  Two sequential `if` statements: first a double-quote pair is
stripped, then a single-quote pair is stripped from the result. -/
def sanitizeQuotes (s : Str) : Str :=
  let s1 := if headIs dqc s && lastIs dqc s then pyStripEnds s else s
  if headIs sqc s1 && lastIs sqc s1 then pyStripEnds s1 else s1

/-- A document as returned by the retrievers: page content plus an (opaque,
rendered) metadata record. -/
structure RDoc where
  pageContent : Str
  metadata : Str
deriving DecidableEq

/-- The configuration consumed by `AgentNodes.wiki_agent`:
`hasAgent` = "wiki" was registered in `self.agents`, `hasStore` = the "wiki"
vector store exists, `retrievalK` = RETRIEVAL_K, `rewriterTurns` =
QUERY_REWRITER_TURNS, `contextMaxChars` = CONTEXT_MAX_CHARS, plus the
configured model name and endpoint. -/
structure AgentCfg where
  hasAgent : Bool
  hasStore : Bool
  retrievalK : Nat
  rewriterTurns : Nat
  contextMaxChars : Nat
  model : Str
  endpoint : Str

/-- The external collaborators of `wiki_agent`:
`rewriteResp` is the content returned by the query-rewrite model call
(`none` models the call raising, which the `except` clause turns into "no
rewrite"); `retrieve` is the ensemble/vector retrieval block for one query
(the `EnsembleRetriever` with its own vector-only `except` fallback,
deterministic per query, before the `[:RETRIEVAL_K]` truncation);
`synthesize` maps (assembled context, user turn) to the answer content. -/
structure AgentOracles where
  rewriteResp : Option Str
  retrieve : Str → List RDoc
  synthesize : Str → Str → Str

/-- The model calls `wiki_agent` issues, recorded with the data that reaches
the model: the rewrite call carries the `concise_history` embedded in its
prompt and the current question; the synthesis call carries the assembled
context embedded in its system prompt and the user turn. -/
inductive LLMCall
  | rewriteCall (conciseHistory : Str) (currentQuestion : Str)
  | synthCall (context : Str) (userTurn : Str)
deriving DecidableEq

/-- The result dictionary of `wiki_agent`: one constructor per `return`
statement, each carrying exactly the keys that return statement produces. -/
inductive WikiResult
  | notConfigured (answer : Str) (model : Str)
  | notAvailable (answer : Str) (model : Str)
  | noDocs (answer : Str) (query : Str) (usedQuery : Str)
      (rewrittenQuery : Option Str)
  | answered (answer : Str) (contextDocs : List Str) (contextText : Str)
      (query : Str) (usedQuery : Str) (rewrittenQuery : Option Str)
      (endpoint : Str)
deriving DecidableEq

/-- The `wiki_answer` value of a result (present in every branch). -/
def WikiResult.answerField : WikiResult → Str
  | .notConfigured a _ => a
  | .notAvailable a _ => a
  | .noDocs a _ _ _ => a
  | .answered a _ _ _ _ _ _ => a

/-- The `query` key of a result, when present. -/
def WikiResult.queryField : WikiResult → Option Str
  | .noDocs _ q _ _ => some q
  | .answered _ _ _ q _ _ _ => some q
  | _ => none

/-- The `used_query` key of a result, when present. -/
def WikiResult.usedQueryField : WikiResult → Option Str
  | .noDocs _ _ u _ => some u
  | .answered _ _ _ _ u _ _ => some u
  | _ => none

/-- The `rewritten_query` key of a result, when present (its value is itself
an `Optional[str]`). -/
def WikiResult.rewrittenQueryField : WikiResult → Option (Option Str)
  | .noDocs _ _ _ r => some r
  | .answered _ _ _ _ _ r _ => some r
  | _ => none

/-- The `wiki_context_docs` key of a result, when present. -/
def WikiResult.contextDocsField : WikiResult → Option (List Str)
  | .answered _ d _ _ _ _ _ => some d
  | _ => none

/-- agent_nodes.py lines 72-111: the optional query rewrite.  Returns the
`rewritten` value together with the model calls issued.  The non-blank lines
of the history are sliced with Python `[-QUERY_REWRITER_TURNS * 2:]` and
joined with newlines into the prompt; the response content is stripped and
de-quoted; an exception (modelled by `rewriteResp = none`) leaves
`rewritten = None`. -/
def rewriteStage (cfg : AgentCfg) (orc : AgentOracles) (query chatHistory : Str) :
    Option Str × List LLMCall :=
  if chatHistory.isEmpty then (none, [])
  else
    let historyLines := (splitNL chatHistory).filter (fun ln => !(pyStrip ln).isEmpty)
    let lastLines := pyLastSlice (cfg.rewriterTurns * 2) historyLines
    let conciseHistory := pyJoin [Char.ofNat 10] lastLines
    match orc.rewriteResp with
    | none => (none, [LLMCall.rewriteCall conciseHistory query])
    | some content =>
      (some (sanitizeQuotes (pyStrip content)), [LLMCall.rewriteCall conciseHistory query])

/-- agent_nodes.py lines 113-150: primary retrieval with the effective query
and, when it comes back empty and a (truthy) rewrite exists, the fallback
retrieval with the original query.  Both apply the same retrieval block and
the same `[:RETRIEVAL_K]` truncation. -/
def retrievedDocs (cfg : AgentCfg) (orc : AgentOracles) (rewritten : Option Str)
    (query : Str) : List RDoc :=
  let effectiveQuery := pyOr rewritten query
  let docs := (orc.retrieve effectiveQuery).take cfg.retrievalK
  if docs.isEmpty && optTruthy rewritten then (orc.retrieve query).take cfg.retrievalK
  else docs

/-- agent_nodes.py line 160: the separator between passages. -/
def ctxSep : Str := str "\n\n---\n\n"

/-- agent_nodes.py lines 160-162: join the page contents with the separator
and hard-truncate to CONTEXT_MAX_CHARS characters. -/
def assembleContext (docs : List RDoc) (maxChars : Nat) : Str :=
  (pyJoin ctxSep (docs.map RDoc.pageContent)).take maxChars

/-- agent_nodes.py line 154: the fixed no-matching-documents answer. -/
def noDocsMsg : Str :=
  str "I couldn" ++ [sqc] ++ str "t find any matching documents for your query."

/-- agent_nodes.py lines 52-195: `AgentNodes.wiki_agent`, returning the
result dictionary together with the list of model calls issued. -/
def wikiAgent (cfg : AgentCfg) (orc : AgentOracles) (query chatHistory : Str) :
    WikiResult × List LLMCall :=
  if !cfg.hasAgent then
    (WikiResult.notConfigured
      (str "Wiki agent not configured. Please check WIKI_ENDPOINT and WIKI_MODEL in your .env file.")
      (str "Not configured"), [])
  else if !cfg.hasStore then
    (WikiResult.notAvailable (str "Documentation not available.") cfg.model, [])
  else
    let rc := rewriteStage cfg orc query chatHistory
    let rewritten := rc.1
    let docs := retrievedDocs cfg orc rewritten query
    if docs.isEmpty then
      let effectiveQuery := pyOr rewritten query
      (WikiResult.noDocs noDocsMsg effectiveQuery effectiveQuery rewritten, rc.2)
    else
      let context := assembleContext docs cfg.contextMaxChars
      let finalQuery := pyOr rewritten query
      let answer := orc.synthesize context finalQuery
      (WikiResult.answered answer (docs.map RDoc.metadata) context finalQuery
        finalQuery rewritten cfg.endpoint,
       rc.2 ++ [LLMCall.synthCall context finalQuery])

/-- agent_nodes.py lines 197-203: `finish_wiki` returns the wiki answer with
source tag "wiki". -/
def finishWiki (wikiAnswer : Str) : Str × Str :=
  (wikiAnswer, str "wiki")

/-- The keys of a stage output dictionary that `timed` inspects:
`wiki_context_docs`, `wiki_context_text` and `context_text` (each absent
(`none`) when the stage did not set it). -/
structure StageOut where
  contextDocs : Option (List Str)
  wikiContextText : Option Str
  contextText : Option Str

/-- One diagnostic event as built in workflow.py lines 41-48: the stage
name, the wall-clock duration in milliseconds, the document count, and the
bounded context preview (set only when the preview text is non-empty). -/
structure DiagEvent where
  name : Str
  durationMs : Nat
  docCount : Nat
  contextPreview : Option Str
deriving DecidableEq

/-- Python `a or dflt` where `a` is an optional string key. -/
def pyOrOpt (o : Option Str) (dflt : Str) : Str :=
  match o with
  | some s => if s.isEmpty then dflt else s
  | none => dflt

/-- workflow.py lines 41-48: the event built for one stage invocation.
`durationMs` is the measured wall-clock duration, supplied as data since
real time is outside the embedding. -/
def mkEvent (name : Str) (durationMs : Nat) (out : StageOut) : DiagEvent :=
  let txt := pyOrOpt out.wikiContextText (pyOrOpt out.contextText [])
  { name := name
    durationMs := durationMs
    docCount := (out.contextDocs.getD []).length
    contextPreview := if txt.isEmpty then none else some (txt.take 500) }

/-- workflow.py lines 35-53: one run of the `timed` wrapper threads the
state's `_diag_events` list through and appends the new event. -/
def timedStep (name : Str) (durationMs : Nat) (out : StageOut)
    (events : List DiagEvent) : List DiagEvent :=
  events ++ [mkEvent name durationMs out]

/-- Sequencing the wrapped pipeline stages (workflow.py lines 56-66: every
node added to the graph is wrapped with `timed`): each stage contributes its
name, measured duration and output dictionary, and the diagnostic log is
threaded through in execution order. -/
def runStages (stages : List (Str × Nat × StageOut)) (events : List DiagEvent) :
    List DiagEvent :=
  stages.foldl (fun evs st => timedStep st.1 st.2.1 st.2.2 evs) events

/-- Decimal digit character. -/
def digitChar (d : Nat) : Char := Char.ofNat (48 + d)

/-- Decimal rendering of a natural number, little fuel-indexed helper
(structurally recursive so that the kernel can evaluate it). -/
def natReprAux : Nat → Nat → Str
  | 0, _ => []
  | fuel + 1, n =>
    if n < 10 then [digitChar n]
    else natReprAux fuel (n / 10) ++ [digitChar (n % 10)]

/-- Decimal rendering of a natural number, as Python `str(i)` renders the
running index inside the f-string id. -/
def natRepr (n : Nat) : Str := natReprAux (n + 1) n

/-- wiki_processor.py lines 170-172: the id string
`f"{collection_name}-{i}"`. -/
def mkId (coll : Str) (i : Nat) : Str := coll ++ '-' :: natRepr i

/-- embedding_client.py lines 29-68: `get_embeddings` posts each text to the
endpoint in order and returns `None` as soon as one request fails, otherwise
the list of vectors in input order.  The per-text outcome (a vector, or a
failed request / raised exception) is the oracle `emb`. -/
def getEmbeddings (emb : Str → Option Vec) : List Str → Option (List Vec)
  | [] => some []
  | t :: ts =>
    match emb t with
    | none => none
    | some v =>
      match getEmbeddings emb ts with
      | none => none
      | some vs => some (v :: vs)

/-- embedding_client.py lines 82-95: `VLLMEmbeddingClient.embed_documents`
returns the vectors when `get_embeddings` produced a truthy (non-empty)
list, and `[]` otherwise. -/
def embedDocuments (emb : Str → Option Vec) (texts : List Str) : List Vec :=
  match getEmbeddings emb texts with
  | none => []
  | some vs => if vs.isEmpty then [] else vs

/-- One persisted record of `vector_store._collection.add`: aligned
(document, metadata, embedding, id). -/
structure Entry (Vec : Type) where
  doc : Str
  meta : Str
  emb : Vec
  id : Str
deriving DecidableEq

/-- wiki_processor.py lines 167-179: the aligned quadruples one `add` call
persists, pairing the batch slices with the ids
`range(start_idx, start_idx + usable)`. -/
def mkEntries (coll : Str) : Nat → List Str → List Str → List Vec → List (Entry Vec)
  | s, t :: ts, m :: ms, e :: es =>
    ⟨t, m, e, mkId coll s⟩ :: mkEntries coll (s + 1) ts ms es
  | _, _, _, _ => []

/-- wiki_processor.py lines 151-180: the body of one loop iteration over
`texts[start_idx:end_idx]` — embed the batch, skip it when no embeddings
come back, truncate to the shorter of (texts, embeddings), skip when empty
after alignment, else persist the aligned prefix. -/
def batchStep (embed : List Str → List Vec) (coll : Str)
    (chunk : List (Str × Str)) (s : Nat) : List (Entry Vec) :=
  let batchTexts := chunk.map Prod.fst
  let batchMetas := chunk.map Prod.snd
  let batchEmbeddings := embed batchTexts
  if batchEmbeddings.isEmpty then []
  else
    let usable := min batchTexts.length batchEmbeddings.length
    if usable = 0 then []
    else
      mkEntries coll s (batchTexts.take usable) (batchMetas.take usable)
        (batchEmbeddings.take usable)

/-- wiki_processor.py lines 149-180: the batching loop
`for start_idx in range(0, len(texts), 64)`, fuel-indexed (the fuel only has
to dominate the iteration count; it is fixed to `docs.length` at the call
site). -/
def addBatchesF (embed : List Str → List Vec) (coll : Str) :
    Nat → List (Str × Str) → Nat → List (Entry Vec)
  | 0, _, _ => []
  | _ + 1, [], _ => []
  | fuel + 1, d :: ds, s =>
    batchStep embed coll ((d :: ds).take 64) s ++
      addBatchesF embed coll fuel ((d :: ds).drop 64) (s + 64)

/-- wiki_processor.py lines 123-185: `create_vector_store` on the list of
(page_content, metadata) pairs; its observable effect is the list of
persisted aligned entries. -/
def createVectorStore (embed : List Str → List Vec) (docs : List (Str × Str))
    (coll : Str) : List (Entry Vec) :=
  addBatchesF embed coll docs.length docs 0

/-- The batch of documents starting at absolute index `64 * k`. -/
def batchAt (docs : List (Str × Str)) (k : Nat) : List (Str × Str) :=
  (docs.drop (64 * k)).take 64

/-- Split at the first occurrence of the (non-empty) separator substring:
`some (before, after)` or `none` when the separator does not occur. -/
def splitFirst (sep : Str) : Str → Option (Str × Str)
  | [] => none
  | a :: rest =>
    if sep.isPrefixOf (a :: rest) then some ([], (a :: rest).drop sep.length)
    else
      match splitFirst sep rest with
      | some (pre, post) => some (a :: pre, post)
      | none => none

/-- Python `s.split(sep, 2)` for a non-empty separator: at most three
parts. -/
def pySplit2 (sep s : Str) : List Str :=
  match splitFirst sep s with
  | none => [s]
  | some (p0, r0) =>
    match splitFirst sep r0 with
    | none => [p0, r0]
    | some (p1, r1) => [p0, p1, r1]

/-- A value of the parsed front-matter mapping as `wiki_processor` consumes
it: a list (whose items are rendered by `str`), a null, or any other value
(rendered by `str`). -/
inductive YVal
  | scalar (rendered : Str)
  | list (items : List Str)
  | null
deriving DecidableEq

/-- The outcome of `yaml.safe_load` on the front-matter block: a raised
`YAMLError`, a value that is falsy or not a dict, or a dict given as its
(insertion-ordered) key/value pairs. -/
inductive YamlOut
  | err
  | notMap
  | map (pairs : List (Str × YVal))
deriving DecidableEq

/-- wiki_processor.py lines 53-57: convert the front-matter values to
strings for ChromaDB compatibility — lists are comma-joined, `None` values
are dropped, everything else is kept rendered. -/
def convertMeta (pairs : List (Str × YVal)) : List (Str × Str) :=
  pairs.filterMap (fun kv =>
    match kv.2 with
    | YVal.list items => some (kv.1, pyJoin [','] items)
    | YVal.scalar r => some (kv.1, r)
    | YVal.null => none)

/-- The front-matter delimiter. -/
def fmDashes : Str := str "---"

/-- wiki_processor.py lines 36-62: `_extract_yaml_frontmatter`.  Returns the
metadata dict and the remaining content; the remaining content is the third
`split("---", 2)` part only when the block parses as a truthy dict, and the
whole content otherwise (including on `YAMLError`). -/
def extractYamlFrontmatter (parse : Str → YamlOut) (content : Str) :
    List (Str × Str) × Str :=
  if fmDashes.isPrefixOf content then
    match pySplit2 fmDashes content with
    | [_, p1, p2] =>
      match parse p1 with
      | YamlOut.map pairs =>
        if pairs.isEmpty then ([], content) else (convertMeta pairs, p2)
      | _ => ([], content)
    | _ => ([], content)
  else ([], content)

/-- Collapse every maximal run of the character `c` to a single `c`
(Python `re.sub(c+"+", c, text)`). -/
def collapseRuns (c : Char) : Str → Str
  | [] => []
  | [a] => [a]
  | a :: b :: rest =>
    if a == c && b == c then collapseRuns c (b :: rest)
    else a :: collapseRuns c (b :: rest)

/-- wiki_processor.py lines 86-89: collapse newline runs, collapse space
runs, strip. -/
def normalizeText (s : Str) : Str :=
  pyStrip (collapseRuns ' ' (collapseRuns '\n' s))

/-- Python `dict.update`: entries of `upd` override entries of `base`. -/
def dictUpdate (base upd : List (Str × Str)) : List (Str × Str) :=
  base.filter (fun kv => (upd.lookup kv.1).isNone) ++ upd

/-- The `Document` built by `process_markdown_file`. -/
structure PMDoc where
  content : Str
  metadata : List (Str × Str)
deriving DecidableEq

/-- wiki_processor.py lines 64-99: `process_markdown_file` before the
optional chunk splitting — build the base metadata, merge in the extracted
front-matter, render the markdown to text (`render` is the external
`markdown` + `BeautifulSoup.get_text` collaborator), normalize, and build
the Document.  NOTE (faithful to the source): line 82 renders `content`,
the full file content — the `content_body` returned by
`_extract_yaml_frontmatter` is never used. -/
def processMarkdownFile (render : Str → Str) (parse : Str → YamlOut)
    (sourcePath fname content : Str) : PMDoc :=
  let base := [(str "source", sourcePath), (str "type", str "wiki"),
               (str "filename", fname)]
  let extracted := extractYamlFrontmatter parse content
  let metadata := dictUpdate base extracted.1
  let text := normalizeText (render content)
  { content := text, metadata := metadata }

/-- Modelled from the spec (`Front-matter extraction` in §4.1 and the
Front-matter glossary entry): the body the specification expects the
Document to carry — the normalized rendering of the remaining content after
the front-matter block has been removed. -/
def specBodyText (render : Str → Str) (parse : Str → YamlOut) (content : Str) : Str :=
  normalizeText (render (extractYamlFrontmatter parse content).2)

/-- Decode a decimal digit string (left inverse of `natRepr`). -/
def decodeDigits (s : Str) : Nat :=
  s.foldl (fun acc c => acc * 10 + (c.toNat - 48)) 0

theorem toNat_digitChar (d : Nat) (h : d < 10) : (digitChar d).toNat = 48 + d := by
  interval_cases d <;> rfl

theorem foldl_decode_append (l : Str) (c : Char) (acc : Nat) :
    List.foldl (fun acc c => acc * 10 + (c.toNat - 48)) acc (l ++ [c]) =
      (List.foldl (fun acc c => acc * 10 + (c.toNat - 48)) acc l) * 10 + (c.toNat - 48) := by
  rw [List.foldl_append]
  rfl

theorem decodeDigits_append_digit (l : Str) (d : Nat) (h : d < 10) :
    decodeDigits (l ++ [digitChar d]) = decodeDigits l * 10 + d := by
  unfold decodeDigits
  rw [foldl_decode_append, toNat_digitChar d h]
  omega

theorem decodeDigits_natReprAux : ∀ (fuel n : Nat), n < fuel →
    decodeDigits (natReprAux fuel n) = n := by
  intro fuel
  induction fuel with
  | zero => intro n h; omega
  | succ f ih =>
    intro n h
    by_cases h10 : n < 10
    · simp only [natReprAux, if_pos h10]
      unfold decodeDigits
      simp only [List.foldl_cons, List.foldl_nil]
      rw [toNat_digitChar n h10]
      omega
    · simp only [natReprAux, if_neg h10]
      have hdiv : n / 10 < n := Nat.div_lt_self (by omega) (by omega)
      rw [decodeDigits_append_digit _ _ (Nat.mod_lt n (by omega))]
      rw [ih (n / 10) (by omega)]
      have := Nat.div_add_mod n 10
      omega

theorem natRepr_inj {m n : Nat} (h : natRepr m = natRepr n) : m = n := by
  have hm := decodeDigits_natReprAux (m + 1) m (by omega)
  have hn := decodeDigits_natReprAux (n + 1) n (by omega)
  unfold natRepr at h
  rw [h] at hm
  omega

theorem mkId_inj {coll : Str} {i j : Nat} (h : mkId coll i = mkId coll j) : i = j := by
  unfold mkId at h
  have h2 := List.append_cancel_left h
  exact natRepr_inj (List.cons_injective.eq_iff.mp h2)

theorem mkEntries_nil₁ {Vec : Type} (coll : Str) (s : Nat) (ms : List Str) (es : List Vec) :
    mkEntries coll s [] ms es = [] := by
  cases ms <;> cases es <;> rfl

theorem mkEntries_nil₂ {Vec : Type} (coll : Str) (s : Nat) (ts : List Str) (es : List Vec) :
    mkEntries coll s ts [] es = [] := by
  cases ts <;> cases es <;> rfl

theorem mkEntries_nil₃ {Vec : Type} (coll : Str) (s : Nat) (ts ms : List Str) :
    mkEntries coll s ts ms ([] : List Vec) = [] := by
  cases ts <;> cases ms <;> rfl

theorem mkEntries_mem {Vec : Type} (coll : Str) :
    ∀ (ts ms : List Str) (es : List Vec) (s : Nat) (e : Entry Vec),
      e ∈ mkEntries coll s ts ms es →
      ∃ d, d < ts.length ∧ d < ms.length ∧ d < es.length ∧
        e.id = mkId coll (s + d) ∧ ts[d]? = some e.doc ∧ ms[d]? = some e.meta := by
  intro ts
  induction ts with
  | nil => intro ms es s e h; rw [mkEntries_nil₁] at h; cases h
  | cons t ts ih =>
    intro ms es s e h
    cases ms with
    | nil => rw [mkEntries_nil₂] at h; cases h
    | cons m ms =>
      cases es with
      | nil => rw [mkEntries_nil₃] at h; cases h
      | cons v es =>
        simp only [mkEntries, List.mem_cons] at h
        rcases h with h | h
        · exact ⟨0, by simp, by simp, by simp, by simp [h], by simp [h], by simp [h]⟩
        · obtain ⟨d, hd1, hd2, hd3, hid, hdoc, hmeta⟩ := ih ms es (s + 1) e h
          refine ⟨d + 1, by simpa using hd1, by simpa using hd2, by simpa using hd3, ?_, ?_, ?_⟩
          · rw [hid]; congr 1; omega
          · simpa using hdoc
          · simpa using hmeta

theorem mkEntries_cover {Vec : Type} (coll : Str) :
    ∀ (ts ms : List Str) (es : List Vec) (s d : Nat),
      d < ts.length → d < ms.length → d < es.length →
      ∃ e ∈ mkEntries coll s ts ms es, e.id = mkId coll (s + d) := by
  intro ts
  induction ts with
  | nil => intro ms es s d h1 _ _; simp at h1
  | cons t ts ih =>
    intro ms es s d h1 h2 h3
    cases ms with
    | nil => simp at h2
    | cons m ms =>
      cases es with
      | nil => simp at h3
      | cons v es =>
        cases d with
        | zero => exact ⟨⟨t, m, v, mkId coll s⟩, by simp [mkEntries], by simp⟩
        | succ d =>
          obtain ⟨e, he, hid⟩ := ih ms es (s + 1) d (by simpa using h1)
            (by simpa using h2) (by simpa using h3)
          refine ⟨e, List.mem_cons_of_mem _ he, ?_⟩
          rw [hid]; congr 1; omega

theorem batchStep_mem {Vec : Type} (embed : List Str → List Vec) (coll : Str)
    (chunk : List (Str × Str)) (s : Nat) (e : Entry Vec)
    (h : e ∈ batchStep embed coll chunk s) :
    ∃ d, d < chunk.length ∧ e.id = mkId coll (s + d) ∧ chunk[d]? = some (e.doc, e.meta) := by
  simp only [batchStep] at h
  split at h
  · cases h
  · split at h
    · cases h
    · obtain ⟨d, hd1, hd2, hd3, hid, hdoc, hmeta⟩ := mkEntries_mem coll _ _ _ _ _ h
      have hlen1 : d < chunk.length := by
        simp only [List.length_take, List.length_map] at hd1
        omega
      refine ⟨d, hlen1, hid, ?_⟩
      have hdu : d < min (chunk.map Prod.fst).length (embed (chunk.map Prod.fst)).length := by
        simp only [List.length_take] at hd1
        omega
      rw [List.getElem?_take] at hdoc hmeta
      simp only [hdu, if_pos] at hdoc hmeta
      rw [List.getElem?_map] at hdoc
      rw [List.getElem?_map] at hmeta
      cases hc : chunk[d]? with
      | none => rw [hc] at hdoc; simp at hdoc
      | some p =>
        rw [hc] at hdoc hmeta
        simp only [Option.map_some'] at hdoc hmeta
        have hp1 : p.1 = e.doc := by injection hdoc
        have hp2 : p.2 = e.meta := by injection hmeta
        congr 1
        exact Prod.ext hp1 hp2

theorem getEmbeddings_length {Vec : Type} (emb : Str → Option Vec) :
    ∀ (ts : List Str) (vs : List Vec), getEmbeddings emb ts = some vs →
      vs.length = ts.length := by
  intro ts
  induction ts with
  | nil => intro vs h; simp only [getEmbeddings] at h; injection h with h; simp [← h]
  | cons t ts ih =>
    intro vs h
    simp only [getEmbeddings] at h
    cases he : emb t with
    | none => rw [he] at h; cases h
    | some v =>
      rw [he] at h
      cases hr : getEmbeddings emb ts with
      | none => rw [hr] at h; cases h
      | some vs' =>
        rw [hr] at h
        injection h with h
        rw [← h]
        simp [ih vs' hr]

theorem embedDocuments_dichotomy {Vec : Type} (emb : Str → Option Vec) (ts : List Str) :
    embedDocuments emb ts = [] ∨
      (getEmbeddings emb ts = some (embedDocuments emb ts) ∧
        (embedDocuments emb ts).length = ts.length) := by
  unfold embedDocuments
  cases hr : getEmbeddings emb ts with
  | none => exact Or.inl rfl
  | some vs =>
    by_cases hv : vs.isEmpty
    · exact Or.inl (by simp [hv])
    · right
      constructor
      · simp [hv]
      · simp only [hv, Bool.false_eq_true, if_false]
        exact getEmbeddings_length emb ts vs hr

theorem batchStep_skip {Vec : Type} (embed : List Str → List Vec) (coll : Str)
    (chunk : List (Str × Str)) (s : Nat)
    (h : embed (chunk.map Prod.fst) = []) :
    batchStep embed coll chunk s = [] := by
  simp [batchStep, h]

theorem batchStep_success {Vec : Type} (oracle : Str → Option Vec) (coll : Str)
    (chunk : List (Str × Str)) (s : Nat) (es : List Vec)
    (h : getEmbeddings oracle (chunk.map Prod.fst) = some es) :
    batchStep (embedDocuments oracle) coll chunk s =
      mkEntries coll s (chunk.map Prod.fst) (chunk.map Prod.snd) es := by
  have hlen : es.length = (chunk.map Prod.fst).length := getEmbeddings_length oracle _ es h
  by_cases hchunk : chunk = []
  · subst hchunk
    have hes : es = [] := by simpa using hlen
    subst hes
    simp [batchStep, embedDocuments, getEmbeddings, mkEntries_nil₁]
  · have hes : ¬ es.isEmpty = true := by
      simp only [List.isEmpty_iff]
      intro he
      rw [he] at hlen
      simp only [List.length_nil, List.length_map] at hlen
      exact hchunk (List.length_eq_zero.mp hlen.symm)
    have hed : embedDocuments oracle (chunk.map Prod.fst) = es := by
      unfold embedDocuments
      rw [h]
      simp [hes]
    simp only [batchStep]
    rw [hed]
    rw [if_neg hes]
    have hmin : min (chunk.map Prod.fst).length es.length = (chunk.map Prod.fst).length := by
      omega
    rw [hmin]
    have hne : ¬ (chunk.map Prod.fst).length = 0 := by
      simp only [List.length_map]
      intro h0
      exact hchunk (List.length_eq_zero.mp h0)
    rw [if_neg hne]
    rw [List.take_length, List.take_of_length_le (by simp), List.take_of_length_le (by omega)]

theorem addBatchesF_nil {Vec : Type} (embed : List Str → List Vec) (coll : Str)
    (fuel s : Nat) : addBatchesF embed coll fuel [] s = [] := by
  cases fuel <;> rfl

theorem addBatchesF_cons {Vec : Type} (embed : List Str → List Vec) (coll : Str)
    (fuel : Nat) (d : Str × Str) (ds : List (Str × Str)) (s : Nat) :
    addBatchesF embed coll (fuel + 1) (d :: ds) s =
      batchStep embed coll ((d :: ds).take 64) s ++
        addBatchesF embed coll fuel ((d :: ds).drop 64) (s + 64) := rfl

theorem addBatchesF_fuel {Vec : Type} (embed : List Str → List Vec) (coll : Str) :
    ∀ (f g : Nat) (docs : List (Str × Str)) (s : Nat),
      docs.length ≤ f → docs.length ≤ g →
      addBatchesF embed coll f docs s = addBatchesF embed coll g docs s := by
  intro f
  induction f with
  | zero =>
    intro g docs s hf _
    have : docs = [] := List.length_eq_zero.mp (by omega)
    subst this
    rw [addBatchesF_nil, addBatchesF_nil]
  | succ f ih =>
    intro g docs s hf hg
    cases docs with
    | nil => rw [addBatchesF_nil, addBatchesF_nil]
    | cons d ds =>
      cases g with
      | zero => simp at hg
      | succ g =>
        rw [addBatchesF_cons, addBatchesF_cons]
        congr 1
        exact ih g ((d :: ds).drop 64) (s + 64)
          (by simp only [List.length_drop]; simp at hf ⊢; omega)
          (by simp only [List.length_drop]; simp at hg ⊢; omega)

theorem addBatchesF_mem {Vec : Type} (embed : List Str → List Vec) (coll : Str) :
    ∀ (fuel : Nat) (docs : List (Str × Str)) (s : Nat) (e : Entry Vec),
      e ∈ addBatchesF embed coll fuel docs s →
      ∃ i, s ≤ i ∧ i < s + docs.length ∧ e.id = mkId coll i ∧
        docs[i - s]? = some (e.doc, e.meta) := by
  intro fuel
  induction fuel with
  | zero => intro docs s e h; cases docs <;> cases h
  | succ fuel ih =>
    intro docs s e h
    cases docs with
    | nil => cases h
    | cons d ds =>
      rw [addBatchesF_cons] at h
      rcases List.mem_append.mp h with h | h
      · obtain ⟨j, hj, hid, hdoc⟩ := batchStep_mem embed coll _ s e h
        refine ⟨s + j, by omega, ?_, hid, ?_⟩
        · have : ((d :: ds).take 64).length ≤ (d :: ds).length := by
            simp [List.length_take]
          omega
        · have hs : s + j - s = j := by omega
          rw [hs]
          rw [List.getElem?_take] at hdoc
          by_cases hj64 : j < 64
          · rw [if_pos hj64] at hdoc; exact hdoc
          · rw [if_neg hj64] at hdoc; cases hdoc
      · obtain ⟨i, hi1, hi2, hid, hdoc⟩ := ih ((d :: ds).drop 64) (s + 64) e h
        refine ⟨i, by omega, ?_, hid, ?_⟩
        · simp only [List.length_drop] at hi2
          have hlen : ((d :: ds).drop 64).length = (d :: ds).length - 64 := by
            simp [List.length_drop]
          omega
        · rw [List.getElem?_drop] at hdoc
          have : 64 + (i - (s + 64)) = i - s := by omega
          rw [this] at hdoc
          exact hdoc

theorem addBatchesF_split {Vec : Type} (embed : List Str → List Vec) (coll : Str) :
    ∀ (k fuel : Nat) (docs : List (Str × Str)) (s : Nat), docs.length ≤ fuel →
      ∃ X, addBatchesF embed coll fuel docs s =
          X ++ addBatchesF embed coll (docs.drop (64 * k)).length (docs.drop (64 * k))
            (s + 64 * k) ∧
        ∀ e ∈ X, ∃ i, s ≤ i ∧ i < s + 64 * k ∧ e.id = mkId coll i := by
  intro k
  induction k with
  | zero =>
    intro fuel docs s hf
    refine ⟨[], ?_, by simp⟩
    simp only [Nat.mul_zero, List.drop_zero, Nat.add_zero, List.nil_append]
    exact addBatchesF_fuel embed coll fuel docs.length docs s hf (le_refl _)
  | succ k ih =>
    intro fuel docs s hf
    cases docs with
    | nil =>
      refine ⟨[], ?_, by simp⟩
      rw [List.drop_nil, addBatchesF_nil, addBatchesF_nil]
      simp
    | cons d ds =>
      cases fuel with
      | zero => simp at hf
      | succ fuel =>
        rw [addBatchesF_cons]
        obtain ⟨X, hX, hXmem⟩ := ih fuel ((d :: ds).drop 64) (s + 64)
          (by simp only [List.length_drop]; simp at hf ⊢; omega)
        rw [hX]
        refine ⟨batchStep embed coll ((d :: ds).take 64) s ++ X, ?_, ?_⟩
        · have hdd : ((d :: ds).drop 64).drop (64 * k) = (d :: ds).drop (64 * (k + 1)) := by
            rw [List.drop_drop]
            congr 1
            omega
          have hs2 : s + 64 + 64 * k = s + 64 * (k + 1) := by omega
          rw [hdd, hs2, List.append_assoc]
        · intro e he
          rcases List.mem_append.mp he with he | he
          · obtain ⟨j, hj, hid, _⟩ := batchStep_mem embed coll _ s e he
            have : ((d :: ds).take 64).length ≤ 64 := by simp [List.length_take]
            exact ⟨s + j, by omega, by omega, hid⟩
          · obtain ⟨i, hi1, hi2, hid⟩ := hXmem e he
            exact ⟨i, by omega, by omega, hid⟩

theorem mkEntries_ids_nodup {Vec : Type} (coll : Str) :
    ∀ (ts ms : List Str) (es : List Vec) (s : Nat),
      ((mkEntries coll s ts ms es).map Entry.id).Nodup := by
  intro ts
  induction ts with
  | nil => intro ms es s; rw [mkEntries_nil₁]; simp
  | cons t ts ih =>
    intro ms es s
    cases ms with
    | nil => rw [mkEntries_nil₂]; simp
    | cons m ms =>
      cases es with
      | nil => rw [mkEntries_nil₃]; simp
      | cons v es =>
        simp only [mkEntries, List.map_cons, List.nodup_cons]
        refine ⟨?_, ih ms es (s + 1)⟩
        intro hmem
        obtain ⟨e, he, hide⟩ := List.mem_map.mp hmem
        obtain ⟨d, _, _, _, hid, _, _⟩ := mkEntries_mem coll ts ms es (s + 1) e he
        rw [hid] at hide
        have := mkId_inj hide
        omega

theorem addBatchesF_ids_nodup {Vec : Type} (embed : List Str → List Vec) (coll : Str) :
    ∀ (fuel : Nat) (docs : List (Str × Str)) (s : Nat),
      ((addBatchesF embed coll fuel docs s).map Entry.id).Nodup := by
  intro fuel
  induction fuel with
  | zero => intro docs s; cases docs <;> simp [addBatchesF]
  | succ fuel ih =>
    intro docs s
    cases docs with
    | nil => rw [addBatchesF_nil]; simp
    | cons d ds =>
      rw [addBatchesF_cons, List.map_append]
      refine List.Nodup.append ?_ (ih _ _) ?_
      · -- the ids of one batch step are a sublist-shaped image of mkEntries ids
        have : batchStep embed coll ((d :: ds).take 64) s =
            mkEntries coll s
              ((((d :: ds).take 64).map Prod.fst).take
                (min (((d :: ds).take 64).map Prod.fst).length
                  (embed (((d :: ds).take 64).map Prod.fst)).length))
              ((((d :: ds).take 64).map Prod.snd).take
                (min (((d :: ds).take 64).map Prod.fst).length
                  (embed (((d :: ds).take 64).map Prod.fst)).length))
              ((embed (((d :: ds).take 64).map Prod.fst)).take
                (min (((d :: ds).take 64).map Prod.fst).length
                  (embed (((d :: ds).take 64).map Prod.fst)).length)) ∨
            batchStep embed coll ((d :: ds).take 64) s = [] := by
          simp only [batchStep]
          split
          · exact Or.inr rfl
          · split
            · exact Or.inr rfl
            · exact Or.inl rfl
        rcases this with hb | hb
        · rw [hb]; exact mkEntries_ids_nodup coll _ _ _ s
        · rw [hb]; simp
      · intro a ha hb
        obtain ⟨e1, he1, hid1⟩ := List.mem_map.mp ha
        obtain ⟨e2, he2, hid2⟩ := List.mem_map.mp hb
        obtain ⟨j, hj, hidj, _⟩ := batchStep_mem embed coll _ s e1 he1
        obtain ⟨i, hi1, _, hidi, _⟩ := addBatchesF_mem embed coll fuel _ _ e2 he2
        have hlen : ((d :: ds).take 64).length ≤ 64 := by simp [List.length_take]
        rw [← hid1, hidj] at hid2
        rw [hidi] at hid2
        have := mkId_inj hid2
        omega

theorem createVectorStore_split {Vec : Type} (oracle : Str → Option Vec)
    (docs : List (Str × Str)) (coll : Str) (k : Nat) :
    ∃ X, createVectorStore (embedDocuments oracle) docs coll =
        X ++ addBatchesF (embedDocuments oracle) coll (docs.drop (64 * k)).length
          (docs.drop (64 * k)) (64 * k) ∧
      ∀ e ∈ X, ∃ i, i < 64 * k ∧ e.id = mkId coll i := by
  obtain ⟨X, hsplit, hXmem⟩ :=
    addBatchesF_split (embedDocuments oracle) coll k docs.length docs 0 (le_refl _)
  refine ⟨X, ?_, ?_⟩
  · unfold createVectorStore
    simpa using hsplit
  · intro e he
    obtain ⟨i, _, hi2, hid⟩ := hXmem e he
    exact ⟨i, by omega, hid⟩

theorem createVectorStore_success_mem {Vec : Type} (oracle : Str → Option Vec)
    (docs : List (Str × Str)) (coll : Str) (k : Nat) (es : List Vec)
    (hes : getEmbeddings oracle ((batchAt docs k).map Prod.fst) = some es) :
    ∀ e ∈ mkEntries coll (64 * k) ((batchAt docs k).map Prod.fst)
        ((batchAt docs k).map Prod.snd) es,
      e ∈ createVectorStore (embedDocuments oracle) docs coll := by
  intro e he
  obtain ⟨X, hsplit', _⟩ := createVectorStore_split oracle docs coll k
  have hb := batchStep_success oracle coll (batchAt docs k) (64 * k) es hes
  rw [hsplit']
  cases hd : docs.drop (64 * k) with
  | nil =>
    exfalso
    unfold batchAt at he
    rw [hd] at he
    simp only [List.take_nil, List.map_nil, mkEntries_nil₁] at he
    cases he
  | cons d ds =>
    refine List.mem_append.mpr (Or.inr ?_)
    have hlen : (d :: ds).length = ds.length + 1 := by simp
    rw [hlen, addBatchesF_cons]
    refine List.mem_append.mpr (Or.inl ?_)
    have hb' : batchStep (embedDocuments oracle) coll ((d :: ds).take 64) (64 * k) =
        mkEntries coll (64 * k) ((batchAt docs k).map Prod.fst)
          ((batchAt docs k).map Prod.snd) es := by
      rw [← hb]
      unfold batchAt
      rw [hd]
    rw [hb']
    exact he

theorem createVectorStore_fail_absent {Vec : Type} (oracle : Str → Option Vec)
    (docs : List (Str × Str)) (coll : Str) (k : Nat)
    (hz : embedDocuments oracle ((batchAt docs k).map Prod.fst) = []) :
    ∀ e ∈ createVectorStore (embedDocuments oracle) docs coll,
      ∀ i, 64 * k ≤ i → i < 64 * k + (batchAt docs k).length → e.id ≠ mkId coll i := by
  intro e he i hi1 hi2
  obtain ⟨X, hsplit', hXmem⟩ := createVectorStore_split oracle docs coll k
  have hchunklen : (batchAt docs k).length ≤ 64 := by
    unfold batchAt
    simp [List.length_take]
  rw [hsplit'] at he
  rcases List.mem_append.mp he with he | he
  · obtain ⟨i', hi'2, hid⟩ := hXmem e he
    rw [hid]
    intro hcon
    have := mkId_inj hcon
    omega
  · cases hd : docs.drop (64 * k) with
    | nil =>
      rw [hd, addBatchesF_nil] at he
      cases he
    | cons d ds =>
      rw [hd] at he
      have hlen : (d :: ds).length = ds.length + 1 := by simp
      rw [hlen, addBatchesF_cons] at he
      rcases List.mem_append.mp he with he | he
      · have hskip : batchStep (embedDocuments oracle) coll ((d :: ds).take 64) (64 * k) = [] := by
          refine batchStep_skip _ coll _ _ ?_
          have : (d :: ds).take 64 = batchAt docs k := by
            unfold batchAt
            rw [hd]
          rw [this]
          exact hz
        rw [hskip] at he
        cases he
      · obtain ⟨i', hi'1, _, hid, _⟩ :=
          addBatchesF_mem (embedDocuments oracle) coll _ _ _ e he
        rw [hid]
        intro hcon
        have := mkId_inj hcon
        omega

/-- C1: During ingestion, texts are embedded in fixed-size batches of 64
(`batchAt docs k` is the k-th such batch of `create_vector_store`), and for
every batch whose embedding call fails or returns fewer vectors than the
texts submitted, that entire batch is skipped — no entry whose id lies in
the batch's absolute index range is persisted — while ingestion continues
with the next batch: every batch whose embedding call succeeds has all of
its aligned entries persisted, and within any batch range persistence is
all-or-nothing (never partially applied). -/
theorem c1_batch_skip {Vec : Type} (oracle : Str → Option Vec)
    (docs : List (Str × Str)) (coll : Str) (k : Nat) :
    ((embedDocuments oracle ((batchAt docs k).map Prod.fst) = [] ∨
        (embedDocuments oracle ((batchAt docs k).map Prod.fst)).length <
          (batchAt docs k).length) →
      ∀ e ∈ createVectorStore (embedDocuments oracle) docs coll,
        ∀ i, 64 * k ≤ i → i < 64 * k + (batchAt docs k).length →
          e.id ≠ mkId coll i)
    ∧ (∀ es, getEmbeddings oracle ((batchAt docs k).map Prod.fst) = some es →
        ∀ e ∈ mkEntries coll (64 * k) ((batchAt docs k).map Prod.fst)
            ((batchAt docs k).map Prod.snd) es,
          e ∈ createVectorStore (embedDocuments oracle) docs coll)
    ∧ (∀ i j, 64 * k ≤ i → i < 64 * k + (batchAt docs k).length →
        64 * k ≤ j → j < 64 * k + (batchAt docs k).length →
        ((∃ e ∈ createVectorStore (embedDocuments oracle) docs coll,
            e.id = mkId coll i) ↔
         (∃ e ∈ createVectorStore (embedDocuments oracle) docs coll,
            e.id = mkId coll j))) := by
  refine ⟨?_, ?_, ?_⟩
  · intro hfail
    have hz : embedDocuments oracle ((batchAt docs k).map Prod.fst) = [] := by
      rcases embedDocuments_dichotomy oracle ((batchAt docs k).map Prod.fst) with hz | ⟨_, hlen⟩
      · exact hz
      · rcases hfail with hz | hlt
        · exact hz
        · rw [hlen] at hlt
          simp only [List.length_map] at hlt
          omega
    exact createVectorStore_fail_absent oracle docs coll k hz
  · intro es hes
    exact createVectorStore_success_mem oracle docs coll k es hes
  · intro i j hi1 hi2 hj1 hj2
    rcases embedDocuments_dichotomy oracle ((batchAt docs k).map Prod.fst) with hz | ⟨hsome, hlen⟩
    · have habsent : ∀ m, 64 * k ≤ m → m < 64 * k + (batchAt docs k).length →
          ¬ ∃ e ∈ createVectorStore (embedDocuments oracle) docs coll,
              e.id = mkId coll m := by
        rintro m hm1 hm2 ⟨e, he, hide⟩
        exact createVectorStore_fail_absent oracle docs coll k hz e he m hm1 hm2 hide
      constructor
      · intro h; exact absurd h (habsent i hi1 hi2)
      · intro h; exact absurd h (habsent j hj1 hj2)
    · have hpresent : ∀ m, 64 * k ≤ m → m < 64 * k + (batchAt docs k).length →
          ∃ e ∈ createVectorStore (embedDocuments oracle) docs coll,
            e.id = mkId coll m := by
        intro m hm1 hm2
        have hd : m - 64 * k < (batchAt docs k).length := by omega
        obtain ⟨e, he, hid⟩ := mkEntries_cover coll ((batchAt docs k).map Prod.fst)
          ((batchAt docs k).map Prod.snd)
          (embedDocuments oracle ((batchAt docs k).map Prod.fst))
          (64 * k) (m - 64 * k) (by simpa using hd) (by simpa using hd)
          (by rw [hlen]; simpa using hd)
        refine ⟨e, createVectorStore_success_mem oracle docs coll k _ hsome e he, ?_⟩
        rw [hid]
        congr 1
        omega
      constructor
      · intro _; exact hpresent j hj1 hj2
      · intro _; exact hpresent i hi1 hi2

theorem c1_batch_skip_witness :
    embedDocuments (fun t => if t = str "x" then (none : Option Nat) else some 0)
        ((batchAt (List.replicate 64 (str "a", str "m") ++ [(str "x", str "m")]) 1).map
          Prod.fst) = []
    ∧ ∀ e ∈ createVectorStore
          (embedDocuments (fun t => if t = str "x" then (none : Option Nat) else some 0))
          (List.replicate 64 (str "a", str "m") ++ [(str "x", str "m")]) (str "wiki"),
        ∀ i, 64 * 1 ≤ i →
          i < 64 * 1 +
            (batchAt (List.replicate 64 (str "a", str "m") ++ [(str "x", str "m")]) 1).length →
          e.id ≠ mkId (str "wiki") i :=
  ⟨by decide, (c1_batch_skip _ _ _ 1).1 (Or.inl (by decide))⟩

/-- C5: every persisted chunk's id is `"<collection>-<index>"` where the
index is the chunk's absolute running index in the full document sequence —
the entry at id index `i` carries exactly the i-th document and metadata —
and the persisted ids contain no duplicates (in particular any two persisted
chunks from different batches have different ids; skipped batches leave
gaps, with no renumbering). -/
theorem c5_absolute_ids {Vec : Type} (oracle : Str → Option Vec)
    (docs : List (Str × Str)) (coll : Str) :
    (∀ e ∈ createVectorStore (embedDocuments oracle) docs coll,
       ∃ i, i < docs.length ∧ e.id = mkId coll i ∧ docs[i]? = some (e.doc, e.meta))
    ∧ ((createVectorStore (embedDocuments oracle) docs coll).map Entry.id).Nodup := by
  constructor
  · intro e he
    obtain ⟨i, hi1, hi2, hid, hdoc⟩ :=
      addBatchesF_mem (embedDocuments oracle) coll docs.length docs 0 e he
    exact ⟨i, by omega, hid, by simpa using hdoc⟩
  · exact addBatchesF_ids_nodup (embedDocuments oracle) coll docs.length docs 0

theorem c5_absolute_ids_witness :
    (⟨str "a", str "m", (0 : Nat), str "wiki-0"⟩ : Entry Nat) ∈
        createVectorStore (embedDocuments (fun _ => some (0 : Nat)))
          [(str "a", str "m")] (str "wiki")
    ∧ ∃ i, i < ([(str "a", str "m")] : List (Str × Str)).length ∧
        (⟨str "a", str "m", (0 : Nat), str "wiki-0"⟩ : Entry Nat).id = mkId (str "wiki") i ∧
        ([(str "a", str "m")] : List (Str × Str))[i]? =
          some ((⟨str "a", str "m", (0 : Nat), str "wiki-0"⟩ : Entry Nat).doc,
            (⟨str "a", str "m", (0 : Nat), str "wiki-0"⟩ : Entry Nat).meta) :=
  ⟨by decide, (c5_absolute_ids (fun _ => some (0 : Nat)) [(str "a", str "m")] (str "wiki")).1
    _ (by decide)⟩

theorem wikiAgent_main (cfg : AgentCfg) (orc : AgentOracles) (query chatHistory : Str)
    (hA : cfg.hasAgent = true) (hS : cfg.hasStore = true) :
    wikiAgent cfg orc query chatHistory =
      (if (retrievedDocs cfg orc (rewriteStage cfg orc query chatHistory).1 query).isEmpty then
        (WikiResult.noDocs noDocsMsg
          (pyOr (rewriteStage cfg orc query chatHistory).1 query)
          (pyOr (rewriteStage cfg orc query chatHistory).1 query)
          (rewriteStage cfg orc query chatHistory).1,
         (rewriteStage cfg orc query chatHistory).2)
      else
        (WikiResult.answered
          (orc.synthesize
            (assembleContext
              (retrievedDocs cfg orc (rewriteStage cfg orc query chatHistory).1 query)
              cfg.contextMaxChars)
            (pyOr (rewriteStage cfg orc query chatHistory).1 query))
          ((retrievedDocs cfg orc (rewriteStage cfg orc query chatHistory).1 query).map
            RDoc.metadata)
          (assembleContext
            (retrievedDocs cfg orc (rewriteStage cfg orc query chatHistory).1 query)
            cfg.contextMaxChars)
          (pyOr (rewriteStage cfg orc query chatHistory).1 query)
          (pyOr (rewriteStage cfg orc query chatHistory).1 query)
          (rewriteStage cfg orc query chatHistory).1 cfg.endpoint,
         (rewriteStage cfg orc query chatHistory).2 ++
           [LLMCall.synthCall
             (assembleContext
               (retrievedDocs cfg orc (rewriteStage cfg orc query chatHistory).1 query)
               cfg.contextMaxChars)
             (pyOr (rewriteStage cfg orc query chatHistory).1 query)])) := by
  simp only [wikiAgent, hA, hS, Bool.not_true, Bool.false_eq_true, if_false]

theorem rewriteStage_some (cfg : AgentCfg) (orc : AgentOracles) (query chatHistory : Str)
    (hh : ¬ chatHistory.isEmpty = true) (content : Str)
    (hc : orc.rewriteResp = some content) :
    rewriteStage cfg orc query chatHistory =
      (some (sanitizeQuotes (pyStrip content)),
       [LLMCall.rewriteCall
         (pyJoin [Char.ofNat 10] (pyLastSlice (cfg.rewriterTurns * 2)
           ((splitNL chatHistory).filter (fun ln => !(pyStrip ln).isEmpty)))) query]) := by
  simp [rewriteStage, hh, hc]

theorem rewriteStage_no_synth (cfg : AgentCfg) (orc : AgentOracles)
    (query chatHistory : Str) :
    ∀ ctx u, LLMCall.synthCall ctx u ∉ (rewriteStage cfg orc query chatHistory).2 := by
  intro ctx u hmem
  unfold rewriteStage at hmem
  by_cases hh : chatHistory.isEmpty
  · simp [hh] at hmem
  · cases hc : orc.rewriteResp with
    | none => simp [hh, hc] at hmem
    | some c => simp [hh, hc] at hmem

theorem wikiAgent_fallback_eq (cfg : AgentCfg) (orc : AgentOracles)
    (query chatHistory : Str)
    (hA : cfg.hasAgent = true) (hS : cfg.hasStore = true)
    (hHist : chatHistory ≠ []) (content : Str)
    (hResp : orc.rewriteResp = some content)
    (hrq : sanitizeQuotes (pyStrip content) ≠ [])
    (hPrimary : (orc.retrieve (sanitizeQuotes (pyStrip content))).take cfg.retrievalK = [])
    (hFallback : (orc.retrieve query).take cfg.retrievalK ≠ []) :
    wikiAgent cfg orc query chatHistory =
      (WikiResult.answered
        (orc.synthesize
          (assembleContext ((orc.retrieve query).take cfg.retrievalK) cfg.contextMaxChars)
          (sanitizeQuotes (pyStrip content)))
        (((orc.retrieve query).take cfg.retrievalK).map RDoc.metadata)
        (assembleContext ((orc.retrieve query).take cfg.retrievalK) cfg.contextMaxChars)
        (sanitizeQuotes (pyStrip content)) (sanitizeQuotes (pyStrip content))
        (some (sanitizeQuotes (pyStrip content))) cfg.endpoint,
       [LLMCall.rewriteCall
          (pyJoin [Char.ofNat 10] (pyLastSlice (cfg.rewriterTurns * 2)
            ((splitNL chatHistory).filter (fun ln => !(pyStrip ln).isEmpty)))) query,
        LLMCall.synthCall
          (assembleContext ((orc.retrieve query).take cfg.retrievalK) cfg.contextMaxChars)
          (sanitizeQuotes (pyStrip content))]) := by
  have hh : ¬ chatHistory.isEmpty = true := by simp [List.isEmpty_iff, hHist]
  have hrs := rewriteStage_some cfg orc query chatHistory hh content hResp
  have h1 : (rewriteStage cfg orc query chatHistory).1 =
      some (sanitizeQuotes (pyStrip content)) := by rw [hrs]
  have h2 : (rewriteStage cfg orc query chatHistory).2 =
      [LLMCall.rewriteCall
        (pyJoin [Char.ofNat 10] (pyLastSlice (cfg.rewriterTurns * 2)
          ((splitNL chatHistory).filter (fun ln => !(pyStrip ln).isEmpty)))) query] := by
    rw [hrs]
  have heff : pyOr (some (sanitizeQuotes (pyStrip content))) query =
      sanitizeQuotes (pyStrip content) := by
    simp [pyOr, List.isEmpty_iff, hrq]
  have hdocs : retrievedDocs cfg orc (some (sanitizeQuotes (pyStrip content))) query =
      (orc.retrieve query).take cfg.retrievalK := by
    simp only [retrievedDocs]
    rw [heff, hPrimary]
    simp [optTruthy, List.isEmpty_iff, hrq]
  have hne : ¬ (retrievedDocs cfg orc (rewriteStage cfg orc query chatHistory).1
      query).isEmpty = true := by
    rw [h1, hdocs]
    simp [List.isEmpty_iff, hFallback]
  rw [wikiAgent_main cfg orc query chatHistory hA hS, if_neg hne, h1, h2, hdocs, heff]
  rfl

/-- C2: when a rewritten query was used (the rewrite call returned a truthy
sanitized result) and the primary retrieval with it is empty while the same
retrieval with the original query is not, `wiki_agent` returns the documents
obtained from the original query, and the `rewritten_query` field of the
output still reports the rewritten query. -/
theorem c2_fallback_retrieval (cfg : AgentCfg) (orc : AgentOracles)
    (query chatHistory : Str)
    (hA : cfg.hasAgent = true) (hS : cfg.hasStore = true)
    (hHist : chatHistory ≠ []) (content : Str)
    (hResp : orc.rewriteResp = some content)
    (hrq : sanitizeQuotes (pyStrip content) ≠ [])
    (hPrimary : (orc.retrieve (sanitizeQuotes (pyStrip content))).take cfg.retrievalK = [])
    (hFallback : (orc.retrieve query).take cfg.retrievalK ≠ []) :
    (wikiAgent cfg orc query chatHistory).1 =
      WikiResult.answered
        (orc.synthesize
          (assembleContext ((orc.retrieve query).take cfg.retrievalK) cfg.contextMaxChars)
          (sanitizeQuotes (pyStrip content)))
        (((orc.retrieve query).take cfg.retrievalK).map RDoc.metadata)
        (assembleContext ((orc.retrieve query).take cfg.retrievalK) cfg.contextMaxChars)
        (sanitizeQuotes (pyStrip content)) (sanitizeQuotes (pyStrip content))
        (some (sanitizeQuotes (pyStrip content))) cfg.endpoint := by
  rw [wikiAgent_fallback_eq cfg orc query chatHistory hA hS hHist content hResp hrq
    hPrimary hFallback]

/-- C10: in the same fallback situation (rewrite succeeded, rewritten query
found nothing, original query found documents) the synthesis call is issued
with the rewritten query as its user turn, and both the `query` and
`used_query` output fields equal the rewritten query, not the original query
that actually produced the returned documents. -/
theorem c10_synthesis_uses_rewritten (cfg : AgentCfg) (orc : AgentOracles)
    (query chatHistory : Str)
    (hA : cfg.hasAgent = true) (hS : cfg.hasStore = true)
    (hHist : chatHistory ≠ []) (content : Str)
    (hResp : orc.rewriteResp = some content)
    (hrq : sanitizeQuotes (pyStrip content) ≠ [])
    (hPrimary : (orc.retrieve (sanitizeQuotes (pyStrip content))).take cfg.retrievalK = [])
    (hFallback : (orc.retrieve query).take cfg.retrievalK ≠ []) :
    (wikiAgent cfg orc query chatHistory).1.queryField =
        some (sanitizeQuotes (pyStrip content))
    ∧ (wikiAgent cfg orc query chatHistory).1.usedQueryField =
        some (sanitizeQuotes (pyStrip content))
    ∧ (wikiAgent cfg orc query chatHistory).2.getLast? =
        some (LLMCall.synthCall
          (assembleContext ((orc.retrieve query).take cfg.retrievalK) cfg.contextMaxChars)
          (sanitizeQuotes (pyStrip content))) := by
  rw [wikiAgent_fallback_eq cfg orc query chatHistory hA hS hHist content hResp hrq
    hPrimary hFallback]
  exact ⟨rfl, rfl, rfl⟩

/-- C4: whenever retrieval — including the original-query fallback —
produces zero documents, `wiki_agent` never issues the answer-synthesis
model call and the returned answer (also after `finish_wiki`) is exactly the
fixed no-matching-documents sentinel. -/
theorem c4_no_docs_short_circuit (cfg : AgentCfg) (orc : AgentOracles)
    (query chatHistory : Str)
    (hA : cfg.hasAgent = true) (hS : cfg.hasStore = true)
    (hEmpty : retrievedDocs cfg orc (rewriteStage cfg orc query chatHistory).1 query = []) :
    (wikiAgent cfg orc query chatHistory).1.answerField = noDocsMsg
    ∧ (finishWiki (wikiAgent cfg orc query chatHistory).1.answerField).1 = noDocsMsg
    ∧ ∀ ctx u, LLMCall.synthCall ctx u ∉ (wikiAgent cfg orc query chatHistory).2 := by
  have hie : (retrievedDocs cfg orc (rewriteStage cfg orc query chatHistory).1
      query).isEmpty = true := by simp [List.isEmpty_iff, hEmpty]
  rw [wikiAgent_main cfg orc query chatHistory hA hS]
  rw [if_pos hie]
  refine ⟨rfl, rfl, ?_⟩
  intro ctx u hmem
  exact rewriteStage_no_synth cfg orc query chatHistory ctx u hmem

theorem c2_fallback_retrieval_witness :
    (str "u: hi" : Str) ≠ [] ∧
    (wikiAgent ⟨true, true, 5, 2, 30000, str "m", str "e"⟩
        ⟨some (str "rewritten"),
         fun q => if q = str "rewritten" then [] else [⟨str "doc", str "meta"⟩],
         fun _ _ => str "ans"⟩
        (str "orig") (str "u: hi")).1 =
      WikiResult.answered (str "ans") [str "meta"] (str "doc") (str "rewritten")
        (str "rewritten") (some (str "rewritten")) (str "e") := by
  refine ⟨by decide, ?_⟩
  have h := c2_fallback_retrieval
    ⟨true, true, 5, 2, 30000, str "m", str "e"⟩
    ⟨some (str "rewritten"),
     fun q => if q = str "rewritten" then [] else [⟨str "doc", str "meta"⟩],
     fun _ _ => str "ans"⟩
    (str "orig") (str "u: hi") rfl rfl (by decide) (str "rewritten") rfl (by decide)
    (by decide) (by decide)
  rw [h]
  decide

theorem c10_synthesis_uses_rewritten_witness :
    (str "user: hello" : Str) ≠ [] ∧
    ((wikiAgent ⟨true, true, 4, 1, 100, str "m", str "e"⟩
        ⟨some (str "followup about topic"),
         fun q => if q = str "followup about topic" then [] else [⟨str "body", str "src"⟩],
         fun _ _ => str "final"⟩
        (str "what about it") (str "user: hello")).1.queryField =
          some (str "followup about topic")
     ∧ (wikiAgent ⟨true, true, 4, 1, 100, str "m", str "e"⟩
        ⟨some (str "followup about topic"),
         fun q => if q = str "followup about topic" then [] else [⟨str "body", str "src"⟩],
         fun _ _ => str "final"⟩
        (str "what about it") (str "user: hello")).1.usedQueryField =
          some (str "followup about topic")
     ∧ (wikiAgent ⟨true, true, 4, 1, 100, str "m", str "e"⟩
        ⟨some (str "followup about topic"),
         fun q => if q = str "followup about topic" then [] else [⟨str "body", str "src"⟩],
         fun _ _ => str "final"⟩
        (str "what about it") (str "user: hello")).2.getLast? =
          some (LLMCall.synthCall (str "body") (str "followup about topic"))) := by
  refine ⟨by decide, ?_⟩
  obtain ⟨h1, h2, h3⟩ := c10_synthesis_uses_rewritten
    ⟨true, true, 4, 1, 100, str "m", str "e"⟩
    ⟨some (str "followup about topic"),
     fun q => if q = str "followup about topic" then [] else [⟨str "body", str "src"⟩],
     fun _ _ => str "final"⟩
    (str "what about it") (str "user: hello") rfl rfl (by decide)
    (str "followup about topic") rfl (by decide) (by decide) (by decide)
  refine ⟨?_, ?_, ?_⟩
  · rw [h1]; decide
  · rw [h2]; decide
  · rw [h3]; decide

theorem c4_no_docs_short_circuit_witness :
    retrievedDocs ⟨true, true, 5, 2, 30000, str "m", str "e"⟩
        ⟨none, fun _ => [], fun _ _ => str "ans"⟩
        (rewriteStage ⟨true, true, 5, 2, 30000, str "m", str "e"⟩
          ⟨none, fun _ => [], fun _ _ => str "ans"⟩ (str "q") []).1 (str "q") = []
    ∧ ((wikiAgent ⟨true, true, 5, 2, 30000, str "m", str "e"⟩
          ⟨none, fun _ => [], fun _ _ => str "ans"⟩ (str "q") []).1.answerField = noDocsMsg
       ∧ (finishWiki (wikiAgent ⟨true, true, 5, 2, 30000, str "m", str "e"⟩
            ⟨none, fun _ => [], fun _ _ => str "ans"⟩ (str "q") []).1.answerField).1 = noDocsMsg
       ∧ ∀ ctx u, LLMCall.synthCall ctx u ∉
          (wikiAgent ⟨true, true, 5, 2, 30000, str "m", str "e"⟩
            ⟨none, fun _ => [], fun _ _ => str "ans"⟩ (str "q") []).2) :=
  ⟨by decide,
   c4_no_docs_short_circuit ⟨true, true, 5, 2, 30000, str "m", str "e"⟩
     ⟨none, fun _ => [], fun _ _ => str "ans"⟩ (str "q") [] rfl rfl (by decide)⟩

/-- C9: running the wrapped pipeline stages appends exactly one diagnostic
event per stage, in execution order, on top of the existing (append-only)
log; every event carries its stage's name, measured wall-clock duration and
document count; and any context preview an event carries has length at most
500 characters. -/
theorem c9_diagnostics :
    (∀ (stages : List (Str × Nat × StageOut)) (init : List DiagEvent),
      runStages stages init = init ++ stages.map (fun st => mkEvent st.1 st.2.1 st.2.2))
    ∧ (∀ (n : Str) (d : Nat) (o : StageOut),
        (mkEvent n d o).name = n ∧ (mkEvent n d o).durationMs = d ∧
        (mkEvent n d o).docCount = (o.contextDocs.getD []).length)
    ∧ (∀ (n : Str) (d : Nat) (o : StageOut) (p : Str),
        (mkEvent n d o).contextPreview = some p → p.length ≤ 500) := by
  refine ⟨?_, ?_, ?_⟩
  · intro stages
    induction stages with
    | nil => intro init; simp [runStages]
    | cons st rest ih =>
      intro init
      have hstep : runStages (st :: rest) init =
          runStages rest (timedStep st.1 st.2.1 st.2.2 init) := rfl
      rw [hstep, ih]
      simp [timedStep]
  · intro n d o
    exact ⟨rfl, rfl, rfl⟩
  · intro n d o p hp
    simp only [mkEvent] at hp
    split at hp
    · cases hp
    · injection hp with hp
      rw [← hp]
      simp [List.length_take]

theorem c9_diagnostics_witness :
    (mkEvent (str "wiki_agent") 7
        ⟨some [str "m1", str "m2"], some (str "hello"), none⟩).contextPreview =
      some (str "hello")
    ∧ (str "hello" : Str).length ≤ 500 :=
  ⟨by decide,
   c9_diagnostics.2.2 (str "wiki_agent") 7
     ⟨some [str "m1", str "m2"], some (str "hello"), none⟩ (str "hello") (by decide)⟩

theorem pyJoin_eq_intercalate (sep : Str) :
    ∀ (l : List Str), pyJoin sep l = List.intercalate sep l := by
  intro l
  induction l with
  | nil => simp [pyJoin, List.intercalate]
  | cons x xs ih =>
    cases xs with
    | nil => simp [pyJoin, List.intercalate]
    | cons y ys =>
      have h1 : pyJoin sep (x :: y :: ys) = x ++ sep ++ pyJoin sep (y :: ys) := rfl
      rw [h1, ih]
      simp [List.intercalate]

theorem pyJoin_length (sep : Str) :
    ∀ (l : List Str), (pyJoin sep l).length =
      (l.map List.length).sum + (l.length - 1) * sep.length := by
  intro l
  induction l with
  | nil => simp [pyJoin]
  | cons x xs ih =>
    cases xs with
    | nil => simp [pyJoin]
    | cons y ys =>
      have h1 : pyJoin sep (x :: y :: ys) = x ++ sep ++ pyJoin sep (y :: ys) := rfl
      rw [h1]
      have hadd : (x ++ sep ++ pyJoin sep (y :: ys)).length =
          x.length + sep.length + (pyJoin sep (y :: ys)).length := by
        simp [List.length_append]
        omega
      rw [hadd, ih]
      have hm : ((y :: ys).length - 1) * sep.length + sep.length =
          ((x :: y :: ys).length - 1) * sep.length := by
        have hstep : (x :: y :: ys).length - 1 = ((y :: ys).length - 1) + 1 := by simp
        rw [hstep, Nat.succ_mul]
      have hsum : ((x :: y :: ys).map List.length).sum =
          x.length + ((y :: ys).map List.length).sum := by simp
      rw [hsum, ← hm]
      omega

/-- C6: for every non-empty retrieved document list, the assembled context
is the passage contents concatenated in ranking order with the visible
separator (`List.intercalate` of the page contents), hard-truncated to the
character budget as a plain character-prefix cutoff (it is a prefix of the
naive concatenation and its length is the minimum of budget and full
length); in particular passages totaling 50000 characters under a budget of
30000 yield exactly the 30000-character prefix of the naive
concatenation. -/
theorem c6_context_assembly :
    (∀ (docs : List RDoc) (budget : Nat), docs ≠ [] →
      assembleContext docs budget =
          (List.intercalate ctxSep (docs.map RDoc.pageContent)).take budget
        ∧ (∃ rest, pyJoin ctxSep (docs.map RDoc.pageContent) =
            assembleContext docs budget ++ rest)
        ∧ (assembleContext docs budget).length =
            min budget (pyJoin ctxSep (docs.map RDoc.pageContent)).length)
    ∧ (∀ docs : List RDoc, docs ≠ [] →
        ((docs.map RDoc.pageContent).map List.length).sum = 50000 →
        (assembleContext docs 30000).length = 30000
        ∧ ∃ rest, pyJoin ctxSep (docs.map RDoc.pageContent) =
            assembleContext docs 30000 ++ rest) := by
  have hcore : ∀ (docs : List RDoc) (budget : Nat),
      assembleContext docs budget =
          (List.intercalate ctxSep (docs.map RDoc.pageContent)).take budget
        ∧ (∃ rest, pyJoin ctxSep (docs.map RDoc.pageContent) =
            assembleContext docs budget ++ rest)
        ∧ (assembleContext docs budget).length =
            min budget (pyJoin ctxSep (docs.map RDoc.pageContent)).length := by
    intro docs budget
    refine ⟨?_, ?_, ?_⟩
    · unfold assembleContext
      rw [pyJoin_eq_intercalate]
    · exact ⟨(pyJoin ctxSep (docs.map RDoc.pageContent)).drop budget,
        (List.take_append_drop budget _).symm⟩
    · unfold assembleContext
      simp [List.length_take]
  refine ⟨fun docs budget _ => hcore docs budget, ?_⟩
  intro docs hne hsum
  obtain ⟨_, hpre, hlen⟩ := hcore docs 30000
  refine ⟨?_, hpre⟩
  rw [hlen, pyJoin_length, hsum]
  omega

theorem c6_context_assembly_witness :
    (([⟨List.replicate 25000 'a', str "m"⟩, ⟨List.replicate 25000 'b', str "m"⟩] :
        List RDoc) ≠ []
      ∧ ((([⟨List.replicate 25000 'a', str "m"⟩, ⟨List.replicate 25000 'b', str "m"⟩] :
          List RDoc).map RDoc.pageContent).map List.length).sum = 50000)
    ∧ ((assembleContext
          [⟨List.replicate 25000 'a', str "m"⟩, ⟨List.replicate 25000 'b', str "m"⟩]
          30000).length = 30000
       ∧ ∃ rest,
          pyJoin ctxSep
            (([⟨List.replicate 25000 'a', str "m"⟩, ⟨List.replicate 25000 'b', str "m"⟩] :
              List RDoc).map RDoc.pageContent) =
            assembleContext
              [⟨List.replicate 25000 'a', str "m"⟩, ⟨List.replicate 25000 'b', str "m"⟩]
              30000 ++ rest) :=
  ⟨⟨List.cons_ne_nil _ _,
    by
      simp only [List.map_cons, List.map_nil, List.sum_cons, List.sum_nil,
        List.length_replicate]
      norm_num⟩,
   c6_context_assembly.2
     [⟨List.replicate 25000 'a', str "m"⟩, ⟨List.replicate 25000 'b', str "m"⟩]
     (List.cons_ne_nil _ _)
     (by
       simp only [List.map_cons, List.map_nil, List.sum_cons, List.sum_nil,
         List.length_replicate]
       norm_num)⟩

/-- Modelled from the spec (§4.4: "History is truncated to the last N
conversational turns ... i.e. the last 2×N non-blank lines"): the last `n`
elements of a list. -/
def lastLines (n : Nat) (l : List α) : List α := l.drop (l.length - n)

theorem pyLastSlice_eq_lastLines (k : Nat) (l : List α) (hk : k ≠ 0) :
    pyLastSlice k l = lastLines k l := by
  simp [pyLastSlice, lastLines, hk]

theorem wikiAgent_rewrite_calls (cfg : AgentCfg) (orc : AgentOracles)
    (query chatHistory h q : Str)
    (hm : LLMCall.rewriteCall h q ∈ (wikiAgent cfg orc query chatHistory).2) :
    LLMCall.rewriteCall h q ∈ (rewriteStage cfg orc query chatHistory).2 := by
  simp only [wikiAgent] at hm
  split at hm
  · cases hm
  · split at hm
    · cases hm
    · split at hm
      · exact hm
      · rcases List.mem_append.mp hm with hm | hm
        · exact hm
        · simp at hm

theorem rewriteStage_calls_mem (cfg : AgentCfg) (orc : AgentOracles)
    (query chatHistory h q : Str)
    (hm : LLMCall.rewriteCall h q ∈ (rewriteStage cfg orc query chatHistory).2) :
    chatHistory ≠ []
    ∧ h = pyJoin [Char.ofNat 10] (pyLastSlice (cfg.rewriterTurns * 2)
        ((splitNL chatHistory).filter (fun ln => !(pyStrip ln).isEmpty)))
    ∧ q = query := by
  by_cases hh : chatHistory.isEmpty
  · simp [rewriteStage, hh] at hm
  · have hne : chatHistory ≠ [] := by simpa [List.isEmpty_iff] using hh
    cases hc : orc.rewriteResp with
    | none =>
      simp only [rewriteStage, hh, Bool.false_eq_true, if_false, hc,
        List.mem_singleton] at hm
      simp only [LLMCall.rewriteCall.injEq] at hm
      exact ⟨hne, hm.1, hm.2⟩
    | some c =>
      simp only [rewriteStage, hh, Bool.false_eq_true, if_false, hc,
        List.mem_singleton] at hm
      simp only [LLMCall.rewriteCall.injEq] at hm
      exact ⟨hne, hm.1, hm.2⟩

/-- C7 counterexample: with `QUERY_REWRITER_TURNS = 0` the Python slice
`[-0:]` keeps the whole list, so the rewrite call receives the entire
non-blank history instead of the last `2×N = 0` lines demanded by the
claim (whose truncation would be the empty history). -/
theorem c7_counterexample :
    (wikiAgent ⟨true, true, 5, 0, 30000, str "m", str "e"⟩
        ⟨some (str "x"), fun _ => [], fun _ _ => []⟩
        (str "q") (str "user: hi")).2 =
      [LLMCall.rewriteCall (str "user: hi") (str "q")]
    ∧ pyJoin [Char.ofNat 10] (lastLines
        (2 * (⟨true, true, 5, 0, 30000, str "m", str "e"⟩ : AgentCfg).rewriterTurns)
        ((splitNL (str "user: hi")).filter (fun ln => !(pyStrip ln).isEmpty))) ≠
      str "user: hi" := by
  constructor
  · decide
  · decide

/-- C7 (amended): the query rewriter is invoked only when the chat history
is non-empty, and — provided the configured turn count N is at least 1 —
the history passed to the rewrite call is the last 2×N non-blank lines of
the chat history, joined by newlines, with the current question passed
unchanged.  (With N = 0 the code passes the whole non-blank history, Python
`[-0:]` being the full-list slice.) -/
theorem c7_amended (cfg : AgentCfg) (orc : AgentOracles) (query chatHistory : Str) :
    (∀ h q, LLMCall.rewriteCall h q ∈ (wikiAgent cfg orc query chatHistory).2 →
      chatHistory ≠ [])
    ∧ (1 ≤ cfg.rewriterTurns →
      ∀ h q, LLMCall.rewriteCall h q ∈ (wikiAgent cfg orc query chatHistory).2 →
        h = pyJoin [Char.ofNat 10] (lastLines (2 * cfg.rewriterTurns)
              ((splitNL chatHistory).filter (fun ln => !(pyStrip ln).isEmpty)))
        ∧ q = query) := by
  constructor
  · intro h q hm
    exact (rewriteStage_calls_mem cfg orc query chatHistory h q
      (wikiAgent_rewrite_calls cfg orc query chatHistory h q hm)).1
  · intro hT h q hm
    obtain ⟨_, hh, hq⟩ := rewriteStage_calls_mem cfg orc query chatHistory h q
      (wikiAgent_rewrite_calls cfg orc query chatHistory h q hm)
    refine ⟨?_, hq⟩
    rw [hh, pyLastSlice_eq_lastLines _ _ (by omega), Nat.mul_comm]

theorem c7_amended_witness :
    1 ≤ (⟨true, true, 5, 2, 30000, str "m", str "e"⟩ : AgentCfg).rewriterTurns
    ∧ LLMCall.rewriteCall (str "b\nc\nd\ne") (str "q") ∈
        (wikiAgent ⟨true, true, 5, 2, 30000, str "m", str "e"⟩
          ⟨some (str "r"), fun _ => [], fun _ _ => []⟩
          (str "q") (str "a\nb\nc\nd\ne")).2
    ∧ (str "b\nc\nd\ne" = pyJoin [Char.ofNat 10] (lastLines
          (2 * (⟨true, true, 5, 2, 30000, str "m", str "e"⟩ : AgentCfg).rewriterTurns)
          ((splitNL (str "a\nb\nc\nd\ne")).filter (fun ln => !(pyStrip ln).isEmpty)))
        ∧ str "q" = str "q") :=
  ⟨by decide, by decide,
   (c7_amended ⟨true, true, 5, 2, 30000, str "m", str "e"⟩
     ⟨some (str "r"), fun _ => [], fun _ _ => []⟩
     (str "q") (str "a\nb\nc\nd\ne")).2 (by decide) (str "b\nc\nd\ne") (str "q")
     (by decide)⟩

/-- Modelled from the spec (§4.4 "strip a single layer of surrounding quote
characters if the model echoes them"): remove exactly one matching
leading/trailing quote pair, if present. -/
def specStripOneLayer (s : Str) : Str :=
  if (headIs dqc s && lastIs dqc s) || (headIs sqc s && lastIs sqc s) then
    pyStripEnds s
  else s

/-- C8 counterexample: on a double-quoted single-quoted string the two
sequential `if` statements of the sanitizer strip both layers, not a single
one: `"'a'"` becomes `a`, while the claim demands removing exactly one layer
(`'a'`). -/
theorem c8_counterexample :
    sanitizeQuotes [dqc, sqc, 'a', sqc, dqc] = ['a']
    ∧ sanitizeQuotes [dqc, sqc, 'a', sqc, dqc] ≠
        specStripOneLayer [dqc, sqc, 'a', sqc, dqc] := by
  constructor
  · decide
  · decide

/-- C8 (amended): the sanitizer strips at most one surrounding double-quote
pair and then at most one surrounding single-quote pair from the result:
with no matching pair the string is unchanged; with exactly one matching
pair one layer is stripped; when a double-quote pair directly wraps a
single-quote pair, both layers (and no more) are stripped. -/
theorem c8_amended (s : Str) :
    ((headIs dqc s && lastIs dqc s) = false → (headIs sqc s && lastIs sqc s) = false →
      sanitizeQuotes s = s)
    ∧ ((headIs dqc s && lastIs dqc s) = true →
        (headIs sqc (pyStripEnds s) && lastIs sqc (pyStripEnds s)) = false →
        sanitizeQuotes s = pyStripEnds s)
    ∧ ((headIs dqc s && lastIs dqc s) = false → (headIs sqc s && lastIs sqc s) = true →
        sanitizeQuotes s = pyStripEnds s)
    ∧ ((headIs dqc s && lastIs dqc s) = true →
        (headIs sqc (pyStripEnds s) && lastIs sqc (pyStripEnds s)) = true →
        sanitizeQuotes s = pyStripEnds (pyStripEnds s)) := by
  refine ⟨?_, ?_, ?_, ?_⟩
  · intro h1 h2
    simp [sanitizeQuotes, h1, h2]
  · intro h1 h2
    simp [sanitizeQuotes, h1, h2]
  · intro h1 h2
    simp [sanitizeQuotes, h1, h2]
  · intro h1 h2
    simp [sanitizeQuotes, h1, h2]

theorem c8_amended_witness :
    (headIs dqc [dqc, 'a', dqc] && lastIs dqc [dqc, 'a', dqc]) = true
    ∧ (headIs sqc (pyStripEnds [dqc, 'a', dqc]) &&
        lastIs sqc (pyStripEnds [dqc, 'a', dqc])) = false
    ∧ sanitizeQuotes [dqc, 'a', dqc] = pyStripEnds [dqc, 'a', dqc] :=
  ⟨by decide, by decide, (c8_amended [dqc, 'a', dqc]).2.1 (by decide) (by decide)⟩

/-- C3 (code evaluation at the failing input): for a markdown file that
starts with a well-formed front-matter block, the extracted metadata is
correct (keys as string values) and the remaining content returned by
`_extract_yaml_frontmatter` is the body without the block — but the
produced Document's content is the normalized rendering of the FULL file
content, front-matter block included, because `process_markdown_file` line
82 renders `content` and never uses `content_body`.  The renderer is
instantiated with the identity function; the real markdown renderer
likewise keeps the front-matter words visible in the rendered text. -/
theorem c3_frontmatter_body_bug :
    (processMarkdownFile id
        (fun s => if s = str "\ntitle: note\n" then
          YamlOut.map [(str "title", YVal.scalar (str "note"))] else YamlOut.err)
        (str "kb/a.md") (str "a.md")
        (str "---\ntitle: note\n---\nBody text")).metadata.lookup (str "title") =
      some (str "note")
    ∧ (extractYamlFrontmatter
        (fun s => if s = str "\ntitle: note\n" then
          YamlOut.map [(str "title", YVal.scalar (str "note"))] else YamlOut.err)
        (str "---\ntitle: note\n---\nBody text")).2 = str "\nBody text"
    ∧ (processMarkdownFile id
        (fun s => if s = str "\ntitle: note\n" then
          YamlOut.map [(str "title", YVal.scalar (str "note"))] else YamlOut.err)
        (str "kb/a.md") (str "a.md")
        (str "---\ntitle: note\n---\nBody text")).content =
      str "---\ntitle: note\n---\nBody text"
    ∧ specBodyText id
        (fun s => if s = str "\ntitle: note\n" then
          YamlOut.map [(str "title", YVal.scalar (str "note"))] else YamlOut.err)
        (str "---\ntitle: note\n---\nBody text") = str "Body text"
    ∧ (processMarkdownFile id
        (fun s => if s = str "\ntitle: note\n" then
          YamlOut.map [(str "title", YVal.scalar (str "note"))] else YamlOut.err)
        (str "kb/a.md") (str "a.md")
        (str "---\ntitle: note\n---\nBody text")).content ≠
      specBodyText id
        (fun s => if s = str "\ntitle: note\n" then
          YamlOut.map [(str "title", YVal.scalar (str "note"))] else YamlOut.err)
        (str "---\ntitle: note\n---\nBody text") := by
  refine ⟨?_, ?_, ?_, ?_, ?_⟩ <;> decide
